import Mathlib

/-!
Verification of the crossword CSP solver (`src/crossword/generate.py`,
class `CrosswordCreator`).  The solver data model (`Variable`, `Crossword`)
is provided by an external module `crossword.py` that is not part of the
sources, so it is modelled from the specification; all solver operations
are translated directly from `generate.py`.

Python conventions captured by the embedding:
  * strings are lists of characters (`Word := List Char`);
  * `s[i]` is modelled with `List.getD i '?'` (all indices arising in the
    verified runs are in range);
  * Python dictionaries keyed by variables are modelled as functions
    (`Domains`) or as insertion-ordered association lists (`Assignment`,
    the `overlaps` table);
  * iterating over a Python `set(...)` is modelled as iterating over the
    deduplicated list that keeps first occurrences (`pySet`); Python set
    order is unspecified, and no verified statement depends on the order;
  * unbounded `while`/recursion is modelled with an explicit fuel
    parameter; the distinguished result `fuelOut` marks fuel exhaustion
    and is never identified with any result the Python code can produce.
-/

/-- Modelled from the spec: slot orientation, `across` or `down`
(`crossword.py` is not among the sources). -/
inductive Direction
  | across
  | down
deriving DecidableEq, Repr

/-- Modelled from the spec: a slot (crossword variable) with identity
`(row, column, orientation, length)`; two slots are equal iff all four
fields match (`crossword.py` is not among the sources). -/
structure Variable where
  row : Nat
  col : Nat
  direction : Direction
  length : Nat
deriving DecidableEq, Repr

/-- A candidate word: a Python string viewed as its list of characters. -/
abbrev Word := List Char

/-- An ordered pair of slots, as stored in the overlaps table. -/
abbrev Arc := Variable × Variable

/-- Modelled from the spec: the read-only puzzle description produced by
the missing `crossword.py` loader — the slot list, the dictionary of
candidate words, and the precomputed overlap map holding an entry for
each ordered pair of distinct slots (`none` when the slots do not cross,
`some (i, j)` when letter `i` of the first must equal letter `j` of the
second).  The list keeps the dictionary's iteration order. -/
structure Crossword where
  vars : List Variable  -- `crossword.variables` (the name `variables` is reserved in Lean)
  words : List Word
  overlaps : List (Arc × Option (Nat × Nat))

/-- `self.crossword.overlaps[x, y]`: dictionary lookup in the overlap
map.  A pair absent from the table behaves as a non-crossing pair. -/
def Crossword.overlap (c : Crossword) (x y : Variable) : Option (Nat × Nat) :=
  match c.overlaps.find? (fun kv => decide (kv.1 = (x, y))) with
  | some kv => kv.2
  | none => none

/-- `self.domains`: the per-slot domain store, one word list per slot. -/
abbrev Domains := Variable → List Word

/-- A partial assignment: a Python dict from slots to words, kept in
insertion order. -/
abbrev Assignment := List (Variable × Word)

/-- `var in assignment` (dictionary key membership). -/
def aHasKey (a : Assignment) (v : Variable) : Bool :=
  a.any (fun p => decide (p.1 = v))

/-- `assignment[var]` (dictionary read; the keys looked up by the solver
are always present). -/
def lookupA (a : Assignment) (v : Variable) : Word :=
  match a.find? (fun p => decide (p.1 = v)) with
  | some p => p.2
  | none => []

/-- `assignment[var] = value`: overwrite in place when the key exists,
append otherwise (Python dicts keep the position of existing keys). -/
def asgInsert (a : Assignment) (v : Variable) (w : Word) : Assignment :=
  if aHasKey a v then a.map (fun p => if p.1 = v then (v, w) else p)
  else a ++ [(v, w)]

/-- `del assignment[var]`. -/
def asgErase (a : Assignment) (v : Variable) : Assignment :=
  a.filter (fun p => decide (¬ p.1 = v))

/-- Iterating over `set(l)`, modelled as deduplication keeping first
occurrences.  Structural gas recursion (`gas = l.length` suffices). -/
def pySetGo {α : Type} [DecidableEq α] : Nat → List α → List α
  | _, [] => []
  | 0, l => l
  | gas + 1, x :: xs => x :: pySetGo gas (xs.filter (fun y => decide (¬ y = x)))

/-- `set(l)` as a first-occurrence deduplicated list. -/
def pySet {α : Type} [DecidableEq α] (l : List α) : List α :=
  pySetGo l.length l

/-- The body of `revise`'s `for word in self.domains[x]` loop, which calls
`self.domains[x].remove(word)` while iterating.  CPython semantics: the
list iterator keeps a cursor `idx`; each step yields `l[idx]` and advances
the cursor, and `remove` deletes the first occurrence of the yielded word
from the list being iterated.  Structural gas recursion: the cursor
advances every step, so `gas = l.length` suffices. -/
def pyRemoveGo (keep : Word → Bool) : Nat → List Word → Nat → Bool → List Word × Bool
  | 0, l, _, revised => (l, revised)
  | gas + 1, l, idx, revised =>
    if h : idx < l.length then
      let w := l.get ⟨idx, h⟩
      if keep w then pyRemoveGo keep gas l (idx + 1) revised
      else pyRemoveGo keep gas (l.erase w) (idx + 1) true
    else (l, revised)

/-- The whole `for word in lst: if not keep(word): lst.remove(word)` loop
of `revise`, returning the final list and the `revised` flag. -/
def pyRemoveLoop (keep : Word → Bool) (l : List Word) : List Word × Bool :=
  pyRemoveGo keep l.length l 0 false

/-- `CrosswordCreator.can_overlap(word, domain, overlap)`. -/
def canOverlap (w : Word) (domain : List Word) (ov : Nat × Nat) : Bool :=
  (domain.map (fun v => v.getD ov.2 '?')).contains (w.getD ov.1 '?')

/-- `CrosswordCreator.revise(x, y)`: mutate `x`'s domain in place while
iterating over it, returning the `revised` flag and the updated store. -/
def reviseModel (c : Crossword) (d : Domains) (x y : Variable) : Bool × Domains :=
  match c.overlap x y with
  | none => (false, d)
  | some ov =>
    let res := pyRemoveLoop (fun w => canOverlap w (d y) ov) (d x)
    (res.2, Function.update d x res.1)

/-- The default `arcs` list of `ac3`: every key of the overlaps table
whose value is not `None`. -/
def defaultArcs (c : Crossword) : List Arc :=
  c.overlaps.filterMap (fun kv => if kv.2.isSome then some kv.1 else none)

/-- The arcs appended to `ac3`'s queue after a revision shrank `v1`'s
domain.  Translates the three `neighbors` rebindings: arcs of the initial
`arcs` list containing `v1`, flattened to their endpoints; the filter
`neighbor != (v1 or v2)` compares only against `v1`, because `v1 or v2`
evaluates to the (always truthy) `v1`; then `set(...)`, and the append of
`(var, v1)` for every member with a truthy overlap entry. -/
def ac3Enqueue (c : Crossword) (arcs : List Arc) (v1 _v2 : Variable) : List Arc :=
  let narcs := arcs.filter (fun arc => decide (arc.1 = v1 ∨ arc.2 = v1))
  let nbs := pySet (narcs.flatMap (fun arc =>
    [arc.1, arc.2].filter (fun nb => decide (¬ nb = v1))))
  (nbs.filter (fun z => (c.overlap z v1).isSome)).map (fun z => (z, v1))

/-- Result of an `ac3` run: Python `True`, Python `False`, or fuel
exhaustion of the model (never produced by the Python loop). -/
inductive AcRes
  | success
  | failure
  | fuelOut
deriving DecidableEq, Repr

/-- The `while len(queue)` loop of `CrosswordCreator.ac3`: pop the front
arc, revise, fail when the revised domain became empty, otherwise enqueue
the re-check arcs when a removal happened. -/
def ac3Loop (c : Crossword) (arcs : List Arc) : Nat → List Arc → Domains → AcRes × Domains
  | _, [], d => (.success, d)
  | 0, _ :: _, d => (.fuelOut, d)
  | fuel + 1, (v1, v2) :: rest, d =>
    let res := reviseModel c d v1 v2
    if res.1 then
      if (res.2 v1).length = 0 then (.failure, res.2)
      else ac3Loop c arcs fuel (rest ++ ac3Enqueue c arcs v1 v2) res.2
    else ac3Loop c arcs fuel rest res.2

/-- `CrosswordCreator.ac3(arcs)`: run the worklist starting from a copy of
the initial arc list. -/
def ac3Run (c : Crossword) (fuel : Nat) (arcs : List Arc) (d : Domains) : AcRes × Domains :=
  ac3Loop c arcs fuel arcs d

/-- `self.domains` as built by `CrosswordCreator.__init__`: every slot
starts with the full dictionary. -/
def initialDomains (c : Crossword) : Domains := fun _ => c.words

/-- `CrosswordCreator.enforce_node_consistency`: keep only the words whose
length equals the slot's length. -/
def enforceNodeConsistency (d : Domains) : Domains :=
  fun v => (d v).filter (fun w => decide (w.length = v.length))

/-- The first loop of `CrosswordCreator.consistent`: walk the assignment's
keys, requiring each word to have the slot's length and to be unseen, a
`seen` list accumulating the accepted words. -/
def uniqueLoop (a : Assignment) : List Variable → List Word → Bool
  | [], _ => true
  | v :: rest, seen =>
    let w := lookupA a v
    if w.length = v.length ∧ ¬ w ∈ seen then uniqueLoop a rest (seen ++ [w])
    else false

/-- The second (double) loop of `CrosswordCreator.consistent`: every pair
of distinct assigned slots with an overlap must agree on the shared
letter. -/
def pairsOk (c : Crossword) (a : Assignment) : Bool :=
  (a.map (fun p => p.1)).all fun v1 =>
    (a.map (fun p => p.1)).all fun v2 =>
      if v1 = v2 then true
      else
        match c.overlap v1 v2 with
        | none => true
        | some ov =>
          decide ((lookupA a v1).getD ov.1 '?' = (lookupA a v2).getD ov.2 '?')

/-- `CrosswordCreator.consistent(assignment)`. -/
def consistentPy (c : Crossword) (a : Assignment) : Bool :=
  uniqueLoop a (a.map (fun p => p.1)) [] && pairsOk c a

/-- `CrosswordCreator.assignment_complete(assignment)`. -/
def assignmentComplete (c : Crossword) (a : Assignment) : Bool :=
  decide (a.length = c.vars.length)

/-- `[k for (k, v) in self.crossword.overlaps.items() if v is not None and
var in k]`, as used by `order_domain_values`, `select_unassigned_variable`
and `infer`. -/
def varArcsOf (c : Crossword) (var : Variable) : List Arc :=
  c.overlaps.filterMap (fun kv =>
    if kv.2.isSome ∧ (kv.1.1 = var ∨ kv.1.2 = var) then some kv.1 else none)

/-- The deduplicated list of unassigned neighbors of `var`, shared by
`order_domain_values` (lines 204-210) and `infer` (lines 302-307). -/
def unassignedNeighbors (c : Crossword) (a : Assignment) (var : Variable) : List Variable :=
  pySet ((varArcsOf c var).flatMap (fun arc =>
    [arc.1, arc.2].filter (fun nb => decide (¬ nb = var) && ! aHasKey a nb)))

/-- The final value of `rules_out[w]` in `order_domain_values`: over each
unassigned neighbor with a truthy overlap entry, count the neighbor's
domain words whose letter at the overlap position differs from the
candidate's letter. -/
def rulesOutCount (c : Crossword) (d : Domains) (a : Assignment) (var : Variable)
    (w : Word) : Nat :=
  ((unassignedNeighbors c a var).map (fun nb =>
    match c.overlap var nb with
    | none => 0
    | some ov =>
      ((d nb).filter (fun v => decide (¬ w.getD ov.1 '?' = v.getD ov.2 '?'))).length)).sum

/-- `CrosswordCreator.order_domain_values(var, assignment)`: the dict
comprehension deduplicates the domain keeping first occurrences, and
Python's `sorted(..., key=lambda x: x[1])` is the stable ascending sort by
count, which `List.insertionSort` with `p.2 ≤ q.2` computes exactly. -/
def orderDomainValues (c : Crossword) (d : Domains) (a : Assignment)
    (var : Variable) : List Word :=
  let pairs := (pySet (d var)).map (fun w => (w, rulesOutCount c d a var w))
  (List.insertionSort (fun p q : Word × Nat => p.2 ≤ q.2) pairs).map (fun p => p.1)

/-- One step of `select_unassigned_variable`'s minimum-domain scan.  The
accumulator is `(min_domain_vars, min_len)`; `min_len` starts at the float
`10e400`, modelled as `none`, below which every integer length compares. -/
def suvMinStep (d : Domains) (acc : List Variable × Option Nat) (var : Variable) :
    List Variable × Option Nat :=
  let dl := (d var).length
  match acc.2 with
  | none => ([var], some dl)
  | some m =>
    if dl < m then ([var], some dl)
    else if dl = m then (acc.1 ++ [var], some m)
    else acc

/-- One step of the tie-break loop of `select_unassigned_variable`.  The
source never updates `highest_degree`, so the comparison
`var_degree > highest_degree` is always against `0`. -/
def suvDegreeStep (c : Crossword) (ret : Option Variable) (var : Variable) : Option Variable :=
  let nbs := pySet ((varArcsOf c var).flatMap (fun arc => [arc.1, arc.2]))
  if nbs.length > 0 then some var else ret

/-- `CrosswordCreator.select_unassigned_variable(assignment)`: scan the
unassigned slots for the minimum domain size; on a tie run the degree
loop, whose result can stay `None` when every tied slot has degree `0`;
otherwise take the single minimum slot. -/
def selectUnassigned (c : Crossword) (d : Domains) (a : Assignment) : Option Variable :=
  let varsToCheck := c.vars.filter (fun v => ! aHasKey a v)
  let minDomainVars := (varsToCheck.foldl (suvMinStep d) ([], none)).1
  if minDomainVars.length > 1 then minDomainVars.foldl (suvDegreeStep c) none
  else minDomainVars.head?

/-- `CrosswordCreator.infer(assignment, var)`: run `ac3` restricted to the
arcs from `var`'s unassigned neighbors to `var`, ignoring its boolean
result, and return the neighbor list. -/
def inferModel (c : Crossword) (fuel : Nat) (a : Assignment) (var : Variable)
    (d : Domains) : List Variable × Domains :=
  let nbs := unassignedNeighbors c a var
  let varArcs := nbs.map (fun z => (z, var))
  (nbs, (ac3Run c fuel varArcs d).2)

/-- The `for inf_var in inferred: self.domains[inf_var] = old_domains[inf_var]`
restoration loop of `backtrack`. -/
def restoreList (d old : Domains) : List Variable → Domains
  | [] => d
  | z :: zs => restoreList (Function.update d z (old z)) old zs

/-- Result of a `backtrack` call: a returned assignment, the `None`
no-solution return, the exception Python raises when
`select_unassigned_variable` produces no slot, or fuel exhaustion of the
model (never produced by the Python code). -/
inductive BtRes
  | found (a : Assignment)
  | exhausted
  | crash
  | fuelOut
deriving DecidableEq, Repr

/-- The `for value in self.order_domain_values(...)` loop of `backtrack`:
try each candidate in order, propagating the first success and any
crash/fuel signal, and continuing through the state left by a failed
attempt. -/
def btLoopG (attempt : Word → Domains → Assignment → BtRes × Domains × Assignment) :
    List Word → Domains → Assignment → BtRes × Domains × Assignment
  | [], d, a => (.exhausted, d, a)
  | v :: vs, d, a =>
    if (attempt v d a).1 = .exhausted then
      btLoopG attempt vs (attempt v d a).2.1 (attempt v d a).2.2
    else attempt v d a

/-- The restoration step of a failed candidate attempt in `backtrack`:
when the recursion returned `None`, restore the slot's domain from the
`old_domains` snapshot `d`, delete the binding, and restore every
inferred neighbor's domain; any other recursion result is propagated
unchanged. -/
def btAttemptRestore (var : Variable) (d : Domains) (inferred : List Variable)
    (r : BtRes × Domains × Assignment) : BtRes × Domains × Assignment :=
  if r.1 = .exhausted then
    (.exhausted, restoreList (Function.update r.2.1 var (d var)) d inferred, asgErase r.2.2 var)
  else r

/-- The consistent branch of a candidate attempt in `backtrack`: snapshot
the domain store (`old_domains = deepcopy(self.domains)` is the argument
`d` itself), install the binding, shrink the slot's domain to the single
value, run `infer`, recurse through `bt`, and hand the result to the
restoration step. -/
def btAttemptRec (fuel : Nat)
    (bt : Domains → Assignment → BtRes × Domains × Assignment)
    (c : Crossword) (var : Variable) (value : Word) (d : Domains) (a : Assignment) :
    BtRes × Domains × Assignment :=
  btAttemptRestore var d
    (inferModel c fuel (asgInsert a var value) var (Function.update d var [value])).1
    (bt (inferModel c fuel (asgInsert a var value) var (Function.update d var [value])).2
      (asgInsert a var value))

/-- One candidate attempt inside `backtrack`'s loop: check `consistent` on
the extended assignment (`new_assignment = assignment.copy()` plus the
binding, whose content equals the later `assignment[var] = value`); if it
fails, the loop moves on with the state untouched. -/
def btAttemptG (fuel : Nat)
    (bt : Domains → Assignment → BtRes × Domains × Assignment)
    (c : Crossword) (var : Variable) (value : Word) (d : Domains) (a : Assignment) :
    BtRes × Domains × Assignment :=
  if consistentPy c (asgInsert a var value) then btAttemptRec fuel bt c var value d a
  else (.exhausted, d, a)

/-- `CrosswordCreator.backtrack(assignment)`, with the mutated
`self.domains` and `assignment` threaded explicitly. -/
def backtrackModel (c : Crossword) : Nat → Domains → Assignment → BtRes × Domains × Assignment
  | 0, d, a => (.fuelOut, d, a)
  | fuel + 1, d, a =>
    if assignmentComplete c a then (.found a, d, a)
    else
      (selectUnassigned c d a).elim (BtRes.crash, d, a) (fun var =>
        btLoopG (btAttemptG fuel (backtrackModel c fuel) c var)
          (orderDomainValues c d a var) d a)

/-- `CrosswordCreator.solve`: node consistency, `ac3` with the default arc
list (return value ignored), then `backtrack` from the empty assignment. -/
def solveModel (c : Crossword) (fuel : Nat) : BtRes × Domains × Assignment :=
  let d0 := enforceNodeConsistency (initialDomains c)
  let d1 := (ac3Run c fuel (defaultArcs c) d0).2
  backtrackModel c fuel d1 []

/-- The domain that the spec's description of `revise(x, y)` prescribes
for `x` (stated for comparison with `reviseModel`, which is translated
from the source): keep exactly the words `w` of the prior domain for
which some word `v` remains in `y`'s domain with `w[i] == v[j]`; with no
overlap the domain is unchanged. -/
def reviseSpecDomain (c : Crossword) (d : Domains) (x y : Variable) : List Word :=
  match c.overlap x y with
  | none => d x
  | some ov =>
    (d x).filter (fun w => (d y).any (fun v => decide (w.getD ov.1 '?' = v.getD ov.2 '?')))

/-! ### Concrete fixtures used by witnesses, counterexamples and
failing-input evaluations. -/

/-- A horizontal two-letter slot crossing `slotY` at its first letter. -/
def slotX : Variable := ⟨0, 0, .across, 2⟩

/-- A vertical two-letter slot crossing `slotX` at its first letter. -/
def slotY : Variable := ⟨0, 0, .down, 2⟩

/-- Two crossing two-letter slots sharing their first letters. -/
def cwXY : Crossword :=
  { vars := [slotX, slotY]
    words := [['a','a'], ['b','a'], ['c','a'], ['c','z']]
    overlaps := [((slotX, slotY), some (0, 0)), ((slotY, slotX), some (0, 0))] }

/-- Domain store where both of `slotX`'s words conflict with `slotY`'s
single word. -/
def domC2 : Domains := fun v =>
  if v = slotX then [['a','a'], ['b','a']]
  else if v = slotY then [['c','z']] else []

/-- Domain store where `slotX` holds two conflicting words and one
compatible word, and `slotY`'s word survives revision. -/
def domC4 : Domains := fun v =>
  if v = slotX then [['a','a'], ['b','a'], ['c','a']]
  else if v = slotY then [['c','a']] else []

/-- Domain store on which propagation empties `slotX`'s domain. -/
def domC6f : Domains := fun v =>
  if v = slotX then [['a','a']]
  else if v = slotY then [['c','z']] else []

/-- A single isolated slot. -/
def slotV6 : Variable := ⟨0, 0, .across, 2⟩

/-- A puzzle with one slot and no overlap entries. -/
def cw6 : Crossword := { vars := [slotV6], words := [], overlaps := [] }

/-- Domain store whose only domain is already empty. -/
def dom6 : Domains := fun _ => []

/-- Tied slot of degree 3 (overlapping `slotC3` and `slotD3`). -/
def slotA3 : Variable := ⟨0, 0, .across, 3⟩

/-- Tied slot of degree 2 (overlapping only `slotC3`). -/
def slotB3 : Variable := ⟨1, 0, .across, 3⟩

/-- A vertical slot crossing both `slotA3` and `slotB3`. -/
def slotC3 : Variable := ⟨0, 0, .down, 3⟩

/-- A vertical slot crossing only `slotA3`. -/
def slotD3 : Variable := ⟨0, 2, .down, 3⟩

/-- Puzzle in which `slotA3` and `slotB3` tie on domain size and
`slotA3` has the larger degree. -/
def cw3 : Crossword :=
  { vars := [slotA3, slotB3, slotC3, slotD3]
    words := []
    overlaps := [((slotA3, slotB3), none), ((slotA3, slotC3), some (0, 0)),
                 ((slotA3, slotD3), some (2, 0)), ((slotB3, slotA3), none),
                 ((slotB3, slotC3), some (0, 1)), ((slotB3, slotD3), none),
                 ((slotC3, slotA3), some (0, 0)), ((slotC3, slotB3), some (1, 0)),
                 ((slotC3, slotD3), none), ((slotD3, slotA3), some (0, 2)),
                 ((slotD3, slotB3), none), ((slotD3, slotC3), none)] }

/-- Domains giving `slotA3` and `slotB3` one word each and the vertical
slots two words each. -/
def dom3 : Domains := fun v =>
  if v = slotA3 then [['x','x','x']]
  else if v = slotB3 then [['y','y','y']]
  else [['x','x','x'], ['y','y','y']]

/-- First of two isolated one-letter slots. -/
def slotP1 : Variable := ⟨0, 0, .across, 1⟩

/-- Second of two isolated one-letter slots. -/
def slotP2 : Variable := ⟨2, 0, .across, 1⟩

/-- An unsatisfiable puzzle: two isolated one-letter slots but a single
one-letter word, which cannot be used twice. -/
def cw3b : Crossword :=
  { vars := [slotP1, slotP2], words := [['a']]
    overlaps := [((slotP1, slotP2), none), ((slotP2, slotP1), none)] }

/-- Initial domains of `cw3b`: both slots hold the single word. -/
def dom3b : Domains := fun _ => [['a']]

/-- A solvable single-slot puzzle. -/
def slotW1 : Variable := ⟨0, 0, .across, 1⟩

/-- Puzzle with one slot and one fitting word. -/
def cw1 : Crossword := { vars := [slotW1], words := [['a']], overlaps := [] }

/-- A one-letter slot whose candidate attempt fails by recursion. -/
def slotQ1 : Variable := ⟨0, 0, .across, 1⟩

/-- A two-letter slot with an empty domain. -/
def slotQ2 : Variable := ⟨2, 0, .across, 2⟩

/-- Puzzle whose second slot has no word of its length, so every attempt
at the first slot fails and must restore state. -/
def cw5 : Crossword :=
  { vars := [slotQ1, slotQ2], words := [['a']]
    overlaps := [((slotQ1, slotQ2), none), ((slotQ2, slotQ1), none)] }

/-- Node-consistent initial domains of `cw5`. -/
def dom5 : Domains := enforceNodeConsistency (initialDomains cw5)

/-! ### Library lemmas about the embedding's loop primitives. -/

theorem mem_pySetGo {α : Type} [DecidableEq α] (x : α) :
    ∀ (gas : Nat) (l : List α), l.length ≤ gas → (x ∈ pySetGo gas l ↔ x ∈ l) := by
  intro gas
  induction gas with
  | zero =>
    intro l hl
    cases l with
    | nil => simp [pySetGo]
    | cons y ys => simp at hl
  | succ n ih =>
    intro l hl
    cases l with
    | nil => simp [pySetGo]
    | cons y ys =>
      have hlen : (ys.filter (fun z => decide (¬ z = y))).length ≤ n := by
        have := List.length_filter_le (fun z => decide (¬ z = y)) ys
        simp at hl
        omega
      simp only [pySetGo, List.mem_cons, ih _ hlen, List.mem_filter]
      constructor
      · rintro (rfl | ⟨hmem, _⟩)
        · exact .inl rfl
        · exact .inr hmem
      · rintro (rfl | hmem)
        · exact .inl rfl
        · by_cases hxy : x = y
          · exact .inl hxy
          · exact .inr ⟨hmem, by simpa using hxy⟩

theorem mem_pySet {α : Type} [DecidableEq α] (x : α) (l : List α) :
    x ∈ pySet l ↔ x ∈ l :=
  mem_pySetGo x l.length l le_rfl

theorem pySetGo_eq_self {α : Type} [DecidableEq α] :
    ∀ (gas : Nat) (l : List α), l.length ≤ gas → l.Nodup → pySetGo gas l = l := by
  intro gas
  induction gas with
  | zero =>
    intro l hl _
    cases l with
    | nil => rfl
    | cons y ys => simp at hl
  | succ n ih =>
    intro l hl hnd
    cases l with
    | nil => rfl
    | cons y ys =>
      have hy : y ∉ ys := (List.nodup_cons.mp hnd).1
      have hfil : ys.filter (fun z => decide (¬ z = y)) = ys := by
        apply List.filter_eq_self.mpr
        intro z hz
        simp only [decide_eq_true_eq]
        intro hzy
        exact hy (hzy ▸ hz)
      simp only [pySetGo, hfil]
      have : ys.length ≤ n := by simp at hl; omega
      rw [ih ys this (List.nodup_cons.mp hnd).2]

theorem pySet_eq_self {α : Type} [DecidableEq α] {l : List α} (h : l.Nodup) :
    pySet l = l :=
  pySetGo_eq_self l.length l le_rfl h

theorem pyRemoveGo_sublist (keep : Word → Bool) :
    ∀ (gas : Nat) (l : List Word) (idx : Nat) (r : Bool),
      (pyRemoveGo keep gas l idx r).1.Sublist l := by
  intro gas
  induction gas with
  | zero => intro l idx r; exact List.Sublist.refl l
  | succ n ih =>
    intro l idx r
    simp only [pyRemoveGo]
    split
    · split
      · exact ih l (idx + 1) r
      · exact (ih _ (idx + 1) true).trans (List.erase_sublist _ l)
    · exact List.Sublist.refl l

theorem pyRemoveGo_true (keep : Word → Bool) :
    ∀ (gas : Nat) (l : List Word) (idx : Nat),
      (pyRemoveGo keep gas l idx true).2 = true := by
  intro gas
  induction gas with
  | zero => intro l idx; rfl
  | succ n ih =>
    intro l idx
    simp only [pyRemoveGo]
    split
    · split
      · exact ih l (idx + 1)
      · exact ih _ (idx + 1)
    · rfl

theorem pyRemoveGo_of_not_revised (keep : Word → Bool) :
    ∀ (gas : Nat) (l : List Word) (idx : Nat),
      (pyRemoveGo keep gas l idx false).2 = false →
      (pyRemoveGo keep gas l idx false).1 = l := by
  intro gas
  induction gas with
  | zero => intro l idx _; rfl
  | succ n ih =>
    intro l idx h
    have hstep : pyRemoveGo keep (n + 1) l idx false =
        if hx : idx < l.length then
          (if keep (l.get ⟨idx, hx⟩) then pyRemoveGo keep n l (idx + 1) false
           else pyRemoveGo keep n (l.erase (l.get ⟨idx, hx⟩)) (idx + 1) true)
        else (l, false) := rfl
    rw [hstep] at h ⊢
    by_cases hidx : idx < l.length
    · rw [dif_pos hidx] at h ⊢
      by_cases hk : keep (l.get ⟨idx, hidx⟩) = true
      · rw [if_pos hk] at h ⊢
        exact ih l (idx + 1) h
      · rw [if_neg hk] at h
        rw [pyRemoveGo_true] at h
        exact absurd h (by simp)
    · rw [dif_neg hidx]

theorem pyRemoveLoop_sublist (keep : Word → Bool) (l : List Word) :
    (pyRemoveLoop keep l).1.Sublist l :=
  pyRemoveGo_sublist keep l.length l 0 false

theorem pyRemoveLoop_of_not_revised (keep : Word → Bool) (l : List Word)
    (h : (pyRemoveLoop keep l).2 = false) : (pyRemoveLoop keep l).1 = l :=
  pyRemoveGo_of_not_revised keep l.length l 0 h

theorem pyRemoveLoop_nil (keep : Word → Bool) : pyRemoveLoop keep [] = ([], false) := rfl

/-! ### Lemmas about `reviseModel`. -/

theorem reviseModel_sublist (c : Crossword) (d : Domains) (x y v : Variable) :
    ((reviseModel c d x y).2 v).Sublist (d v) := by
  unfold reviseModel
  cases hov : c.overlap x y with
  | none => exact List.Sublist.refl _
  | some ov =>
    simp only
    by_cases hvx : v = x
    · subst hvx
      rw [Function.update_same]
      exact pyRemoveLoop_sublist _ _
    · rw [Function.update_noteq hvx]

theorem reviseModel_frame (c : Crossword) (d : Domains) (x y v : Variable)
    (h : ¬ v = x) : (reviseModel c d x y).2 v = d v := by
  unfold reviseModel
  cases hov : c.overlap x y with
  | none => rfl
  | some ov => simp only [Function.update_noteq h]

theorem reviseModel_true_ne_nil (c : Crossword) (d : Domains) (x y : Variable)
    (h : (reviseModel c d x y).1 = true) : d x ≠ [] := by
  intro hnil
  unfold reviseModel at h
  cases hov : c.overlap x y with
  | none => rw [hov] at h; exact absurd h (by simp)
  | some ov =>
    rw [hov] at h
    simp only [hnil] at h
    rw [pyRemoveLoop_nil] at h
    exact absurd h (by simp)

theorem reviseModel_not_revised (c : Crossword) (d : Domains) (x y : Variable)
    (h : (reviseModel c d x y).1 = false) : (reviseModel c d x y).2 = d := by
  unfold reviseModel at h ⊢
  cases hov : c.overlap x y with
  | none => rfl
  | some ov =>
    rw [hov] at h
    simp only at h ⊢
    rw [pyRemoveLoop_of_not_revised _ _ h]
    exact Function.update_eq_self x d

/-! ### Lemmas about `ac3`. -/

theorem ac3Loop_nil (c : Crossword) (arcs : List Arc) (fuel : Nat) (d : Domains) :
    ac3Loop c arcs fuel [] d = (.success, d) := by
  cases fuel <;> rfl

theorem ac3Loop_succ (c : Crossword) (arcs : List Arc) (fuel : Nat)
    (v1 v2 : Variable) (rest : List Arc) (d : Domains) :
    ac3Loop c arcs (fuel + 1) ((v1, v2) :: rest) d =
      (if (reviseModel c d v1 v2).1 then
        (if ((reviseModel c d v1 v2).2 v1).length = 0 then
          (.failure, (reviseModel c d v1 v2).2)
         else ac3Loop c arcs fuel (rest ++ ac3Enqueue c arcs v1 v2) (reviseModel c d v1 v2).2)
      else ac3Loop c arcs fuel rest (reviseModel c d v1 v2).2) := rfl

theorem mem_ac3Enqueue (c : Crossword) (arcs : List Arc) (v1 v2 z w : Variable) :
    (z, w) ∈ ac3Enqueue c arcs v1 v2 ↔
      (w = v1 ∧ ¬ z = v1 ∧ (c.overlap z v1).isSome = true ∧
        ∃ q, q ∈ arcs ∧ (q.1 = v1 ∨ q.2 = v1) ∧ (z = q.1 ∨ z = q.2)) := by
  simp only [ac3Enqueue, List.mem_map, List.mem_filter, mem_pySet, List.mem_flatMap,
    List.mem_cons, List.not_mem_nil, or_false, decide_eq_true_eq, Prod.mk.injEq]
  constructor
  · rintro ⟨z2, ⟨⟨q, ⟨hqmem, hqv1⟩, hz2⟩, hov⟩, rfl, rfl⟩
    exact ⟨rfl, hz2.2, hov, q, hqmem, hqv1, hz2.1⟩
  · rintro ⟨rfl, hzv1, hov, q, hqmem, hqv1, hzq⟩
    exact ⟨z, ⟨⟨q, ⟨hqmem, hqv1⟩, hzq, hzv1⟩, hov⟩, rfl, rfl⟩

theorem ac3Loop_untouched (c : Crossword) (arcs : List Arc) (v : Variable)
    (harcs : ∀ p ∈ arcs, ¬ v = p.1 ∧ ¬ v = p.2) :
    ∀ (fuel : Nat) (queue : List Arc) (d : Domains),
      (∀ p ∈ queue, ¬ v = p.1 ∧ ¬ v = p.2) →
      (ac3Loop c arcs fuel queue d).2 v = d v := by
  intro fuel
  induction fuel with
  | zero =>
    intro queue d _
    cases queue with
    | nil => rfl
    | cons p rest => rfl
  | succ n ih =>
    intro queue d hq
    cases queue with
    | nil => rfl
    | cons p rest =>
      obtain ⟨v1, v2⟩ := p
      have hv1 : ¬ v = v1 := (hq (v1, v2) (List.mem_cons_self _ _)).1
      have hrest : ∀ p ∈ rest, ¬ v = p.1 ∧ ¬ v = p.2 :=
        fun p hp => hq p (List.mem_cons_of_mem _ hp)
      have hframe : (reviseModel c d v1 v2).2 v = d v := reviseModel_frame c d v1 v2 v hv1
      rw [ac3Loop_succ]
      by_cases hrev : (reviseModel c d v1 v2).1 = true
      · rw [if_pos hrev]
        by_cases hemp : ((reviseModel c d v1 v2).2 v1).length = 0
        · rw [if_pos hemp]
          exact hframe
        · rw [if_neg hemp]
          rw [ih (rest ++ ac3Enqueue c arcs v1 v2) _ ?_, hframe]
          intro p hp
          rcases List.mem_append.mp hp with h | h
          · exact hrest p h
          · obtain ⟨z, w⟩ := p
            rw [mem_ac3Enqueue] at h
            obtain ⟨hw, _, _, q, hq', _, hq2⟩ := h
            constructor
            · intro hvz
              rcases hq2 with h2 | h2
              · exact (harcs q hq').1 (hvz.trans h2)
              · exact (harcs q hq').2 (hvz.trans h2)
            · intro hvw
              exact hv1 (hvw.trans hw)
      · rw [if_neg hrev]
        rw [ih rest _ hrest, hframe]

theorem ac3Loop_spec (c : Crossword) (arcs : List Arc) :
    ∀ (fuel : Nat) (queue : List Arc) (d : Domains),
      (∀ v, ((ac3Loop c arcs fuel queue d).2 v).Sublist (d v)) ∧
      ((ac3Loop c arcs fuel queue d).1 = .failure →
        ∃ v, (ac3Loop c arcs fuel queue d).2 v = [] ∧ d v ≠ []) ∧
      ((ac3Loop c arcs fuel queue d).1 = .success →
        ∀ v, (ac3Loop c arcs fuel queue d).2 v = [] → d v = []) := by
  intro fuel
  induction fuel with
  | zero =>
    intro queue d
    cases queue with
    | nil =>
      rw [ac3Loop_nil]
      exact ⟨fun v => List.Sublist.refl _, by simp, fun _ v hv => hv⟩
    | cons p rest =>
      exact ⟨fun v => List.Sublist.refl _, by simp [ac3Loop], by simp [ac3Loop]⟩
  | succ n ih =>
    intro queue d
    cases queue with
    | nil =>
      rw [ac3Loop_nil]
      exact ⟨fun v => List.Sublist.refl _, by simp, fun _ v hv => hv⟩
    | cons p rest =>
      obtain ⟨v1, v2⟩ := p
      rw [ac3Loop_succ]
      by_cases hrev : (reviseModel c d v1 v2).1 = true
      · rw [if_pos hrev]
        by_cases hemp : ((reviseModel c d v1 v2).2 v1).length = 0
        · rw [if_pos hemp]
          refine ⟨fun v => reviseModel_sublist c d v1 v2 v, fun _ => ?_, by simp⟩
          refine ⟨v1, List.length_eq_zero.mp hemp, reviseModel_true_ne_nil c d v1 v2 hrev⟩
        · rw [if_neg hemp]
          obtain ⟨ihs, ihf, iht⟩ := ih (rest ++ ac3Enqueue c arcs v1 v2) (reviseModel c d v1 v2).2
          refine ⟨fun v => (ihs v).trans (reviseModel_sublist c d v1 v2 v), ?_, ?_⟩
          · intro hfail
            obtain ⟨v, hv, hv2⟩ := ihf hfail
            refine ⟨v, hv, fun hdv => hv2 ?_⟩
            exact List.sublist_nil.mp (hdv ▸ reviseModel_sublist c d v1 v2 v)
          · intro hsucc v hv
            have h2 := iht hsucc v hv
            by_cases hvv1 : v = v1
            · subst hvv1
              exact absurd (by rw [h2]; rfl) hemp
            · rw [reviseModel_frame c d v1 v2 v hvv1] at h2
              exact h2
      · rw [if_neg hrev]
        rw [reviseModel_not_revised c d v1 v2 (by simpa using hrev)]
        exact ih rest d

/-! ### Lemmas about assignments, restoration and slot selection. -/

theorem asgErase_asgInsert (a : Assignment) (v : Variable) (w : Word)
    (h : aHasKey a v = false) : asgErase (asgInsert a v w) v = a := by
  unfold asgInsert asgErase
  rw [h]
  simp only [Bool.false_eq_true, if_false, List.filter_append]
  have h1 : a.filter (fun p => decide (¬ p.1 = v)) = a := by
    apply List.filter_eq_self.mpr
    intro p hp
    simp only [decide_eq_true_eq]
    intro hpv
    have : aHasKey a v = true := by
      unfold aHasKey
      exact List.any_eq_true.mpr ⟨p, hp, by simpa using hpv⟩
    rw [h] at this
    cases this
  rw [h1]
  simp

theorem restoreList_apply (old : Domains) (v : Variable) :
    ∀ (zs : List Variable) (d : Domains),
      restoreList d old zs v = if v ∈ zs then old v else d v := by
  intro zs
  induction zs with
  | nil => intro d; simp [restoreList]
  | cons z zs ih =>
    intro d
    rw [restoreList, ih]
    by_cases hv : v ∈ zs
    · rw [if_pos hv, if_pos (List.mem_cons_of_mem z hv)]
    · rw [if_neg hv]
      by_cases hvz : v = z
      · subst hvz
        rw [if_pos (List.mem_cons_self v zs), Function.update_same]
      · rw [if_neg (by simp [hvz, hv]), Function.update_noteq hvz]

theorem inferModel_untouched (c : Crossword) (fuel : Nat) (a : Assignment)
    (var : Variable) (d : Domains) (v : Variable) (hvar : ¬ v = var)
    (hnb : v ∉ (inferModel c fuel a var d).1) :
    (inferModel c fuel a var d).2 v = d v := by
  unfold inferModel at hnb ⊢
  simp only at hnb ⊢
  apply ac3Loop_untouched
  · intro p hp
    obtain ⟨z, hz, rfl⟩ := List.mem_map.mp hp
    exact ⟨fun hvz => hnb (hvz ▸ hz), hvar⟩
  · intro p hp
    obtain ⟨z, hz, rfl⟩ := List.mem_map.mp hp
    exact ⟨fun hvz => hnb (hvz ▸ hz), hvar⟩

theorem suvMinFold_subset (d : Domains) (P : Variable → Prop) :
    ∀ (l : List Variable) (acc : List Variable × Option Nat),
      (∀ x ∈ acc.1, P x) → (∀ x ∈ l, P x) →
      ∀ x ∈ (l.foldl (suvMinStep d) acc).1, P x := by
  intro l
  induction l with
  | nil =>
    intro acc hacc _ x hx
    exact hacc x hx
  | cons y ys ih =>
    intro acc hacc hl x hx
    rw [List.foldl_cons] at hx
    refine ih (suvMinStep d acc y) ?_ (fun z hz => hl z (List.mem_cons_of_mem y hz)) x hx
    intro z hz
    have hy : P y := hl y (List.mem_cons_self y ys)
    unfold suvMinStep at hz
    rcases hacc2 : acc.2 with _ | m
    · rw [hacc2] at hz
      simp only [List.mem_singleton] at hz
      exact hz ▸ hy
    · rw [hacc2] at hz
      simp only at hz
      split at hz
      · simp only [List.mem_singleton] at hz
        exact hz ▸ hy
      · split at hz
        · rcases List.mem_append.mp hz with h | h
          · exact hacc z h
          · simp only [List.mem_singleton] at h
            exact h ▸ hy
        · exact hacc z hz

theorem suvDegreeFold_mem (c : Crossword) (P : Variable → Prop) :
    ∀ (l : List Variable) (r : Option Variable),
      (∀ x, r = some x → P x) → (∀ x ∈ l, P x) →
      ∀ x, l.foldl (suvDegreeStep c) r = some x → P x := by
  intro l
  induction l with
  | nil =>
    intro r hr _ x hx
    exact hr x hx
  | cons y ys ih =>
    intro r hr hl x hx
    rw [List.foldl_cons] at hx
    refine ih (suvDegreeStep c r y) ?_ (fun z hz => hl z (List.mem_cons_of_mem y hz)) x hx
    intro z hz
    unfold suvDegreeStep at hz
    simp only at hz
    split at hz
    · cases hz
      exact hl y (List.mem_cons_self y ys)
    · exact hr z hz

theorem selectUnassigned_spec (c : Crossword) (d : Domains) (a : Assignment)
    (var : Variable) (h : selectUnassigned c d a = some var) :
    var ∈ c.vars ∧ aHasKey a var = false := by
  have key : ∀ x, x ∈ c.vars.filter (fun v => ! aHasKey a v) →
      x ∈ c.vars ∧ aHasKey a x = false := by
    intro x hx
    obtain ⟨h1, h2⟩ := List.mem_filter.mp hx
    exact ⟨h1, by simpa using h2⟩
  unfold selectUnassigned at h
  simp only at h
  split at h
  · exact key var (suvDegreeFold_mem c _ _ none (by simp) (fun x hx =>
      suvMinFold_subset d _ _ ([], none) (by simp) (fun z hz => hz) x hx) var h)
  · have hmem : var ∈ ((c.vars.filter (fun v => ! aHasKey a v)).foldl
        (suvMinStep d) ([], none)).1 := by
      cases hlist : ((c.vars.filter (fun v => ! aHasKey a v)).foldl
          (suvMinStep d) ([], none)).1 with
      | nil => rw [hlist] at h; cases h
      | cons u us =>
        rw [hlist] at h
        simp only [List.head?_cons, Option.some.injEq] at h
        subst h
        exact List.mem_cons_self _ _
    exact key var (suvMinFold_subset d _ _ ([], none) (by simp) (fun z hz => hz) var hmem)


/-! ### Restoration and soundness of the backtracking search. -/

theorem btLoopG_cons (attempt : Word → Domains → Assignment → BtRes × Domains × Assignment)
    (v : Word) (vs : List Word) (d : Domains) (a : Assignment) :
    btLoopG attempt (v :: vs) d a =
      (if (attempt v d a).1 = .exhausted then
        btLoopG attempt vs (attempt v d a).2.1 (attempt v d a).2.2
      else attempt v d a) := rfl

theorem backtrackModel_succ (c : Crossword) (n : Nat) (d : Domains) (a : Assignment) :
    backtrackModel c (n + 1) d a =
      (if assignmentComplete c a then (.found a, d, a)
       else
         (selectUnassigned c d a).elim (BtRes.crash, d, a) (fun var =>
           btLoopG (btAttemptG n (backtrackModel c n) c var)
             (orderDomainValues c d a var) d a)) := rfl

theorem btAttemptG_restore (fuel : Nat)
    (bt : Domains → Assignment → BtRes × Domains × Assignment)
    (c : Crossword) (var : Variable) (value : Word) (d : Domains) (a : Assignment)
    (hbt : ∀ d2 a2, (bt d2 a2).1 = .exhausted → (bt d2 a2).2.1 = d2 ∧ (bt d2 a2).2.2 = a2)
    (hvar : aHasKey a var = false)
    (h : (btAttemptG fuel bt c var value d a).1 = .exhausted) :
    (btAttemptG fuel bt c var value d a).2.1 = d ∧
      (btAttemptG fuel bt c var value d a).2.2 = a := by
  unfold btAttemptG at h ⊢
  by_cases hc : consistentPy c (asgInsert a var value) = true
  · rw [if_pos hc] at h ⊢
    unfold btAttemptRec btAttemptRestore at h ⊢
    by_cases hres : (bt (inferModel c fuel (asgInsert a var value) var
        (Function.update d var [value])).2 (asgInsert a var value)).1 = BtRes.exhausted
    · rw [if_pos hres] at h ⊢
      have hback := hbt _ _ hres
      constructor
      · show restoreList _ d _ = d
        funext v
        rw [restoreList_apply]
        split
        · rfl
        · rename_i hnotin
          by_cases hvv : v = var
          · subst hvv
            rw [Function.update_same]
          · rw [Function.update_noteq hvv, hback.1,
              inferModel_untouched c fuel _ var _ v hvv hnotin,
              Function.update_noteq hvv]
      · show asgErase _ var = a
        rw [hback.2]
        exact asgErase_asgInsert a var value hvar
    · rw [if_neg hres] at h
      exact absurd h hres
  · rw [if_neg hc] at h ⊢
    exact ⟨rfl, rfl⟩

theorem btLoopG_restore
    (attempt : Word → Domains → Assignment → BtRes × Domains × Assignment)
    (Q : Assignment → Prop)
    (hat : ∀ v d a, Q a → (attempt v d a).1 = .exhausted →
      (attempt v d a).2.1 = d ∧ (attempt v d a).2.2 = a) :
    ∀ (vals : List Word) (d : Domains) (a : Assignment), Q a →
      (btLoopG attempt vals d a).1 = .exhausted →
      (btLoopG attempt vals d a).2.1 = d ∧ (btLoopG attempt vals d a).2.2 = a := by
  intro vals
  induction vals with
  | nil => intro d a _ _; exact ⟨rfl, rfl⟩
  | cons v vs ih =>
    intro d a hQ h
    rw [btLoopG_cons] at h ⊢
    by_cases hres : (attempt v d a).1 = .exhausted
    · rw [if_pos hres] at h ⊢
      have hstep := hat v d a hQ hres
      rw [hstep.1, hstep.2] at h ⊢
      exact ih d a hQ h
    · rw [if_neg hres] at h
      exact absurd h hres

theorem bt_restore (c : Crossword) :
    ∀ (fuel : Nat) (d : Domains) (a : Assignment),
      (backtrackModel c fuel d a).1 = .exhausted →
      (backtrackModel c fuel d a).2.1 = d ∧ (backtrackModel c fuel d a).2.2 = a := by
  intro fuel
  induction fuel with
  | zero => intro d a h; exact BtRes.noConfusion h
  | succ n ih =>
    intro d a h
    rw [backtrackModel_succ] at h ⊢
    by_cases hcomp : assignmentComplete c a = true
    · rw [if_pos hcomp] at h
      exact BtRes.noConfusion h
    · rw [if_neg hcomp] at h ⊢
      cases hsel : selectUnassigned c d a with
      | none =>
        rw [hsel] at h
        exact BtRes.noConfusion h
      | some var =>
        rw [hsel] at h
        simp only [Option.elim] at h ⊢
        exact btLoopG_restore _ (fun a2 => aHasKey a2 var = false)
          (fun v d2 a2 hQ h2 =>
            btAttemptG_restore n (backtrackModel c n) c var v d2 a2 ih hQ h2)
          _ d a (selectUnassigned_spec c d a var hsel).2 h

theorem btAttemptG_sound (fuel : Nat)
    (bt : Domains → Assignment → BtRes × Domains × Assignment)
    (c : Crossword) (var : Variable) (P : Assignment → Prop)
    (hbt : ∀ d2 a2 sol, consistentPy c a2 = true → (bt d2 a2).1 = .found sol → P sol) :
    ∀ (value : Word) (d : Domains) (a : Assignment) (sol : Assignment),
      (btAttemptG fuel bt c var value d a).1 = .found sol → P sol := by
  intro value d a sol h
  unfold btAttemptG at h
  by_cases hc : consistentPy c (asgInsert a var value) = true
  · rw [if_pos hc] at h
    unfold btAttemptRec btAttemptRestore at h
    by_cases hres : (bt (inferModel c fuel (asgInsert a var value) var
        (Function.update d var [value])).2 (asgInsert a var value)).1 = BtRes.exhausted
    · rw [if_pos hres] at h
      exact BtRes.noConfusion h
    · rw [if_neg hres] at h
      exact hbt _ _ sol hc h
  · rw [if_neg hc] at h
    exact BtRes.noConfusion h

theorem btLoopG_sound
    (attempt : Word → Domains → Assignment → BtRes × Domains × Assignment)
    (P : Assignment → Prop)
    (hat : ∀ v d a sol, (attempt v d a).1 = .found sol → P sol) :
    ∀ (vals : List Word) (d : Domains) (a : Assignment) (sol : Assignment),
      (btLoopG attempt vals d a).1 = .found sol → P sol := by
  intro vals
  induction vals with
  | nil => intro d a sol h; exact BtRes.noConfusion h
  | cons v vs ih =>
    intro d a sol h
    rw [btLoopG_cons] at h
    by_cases hres : (attempt v d a).1 = .exhausted
    · rw [if_pos hres] at h
      exact ih _ _ sol h
    · rw [if_neg hres] at h
      exact hat v d a sol h

theorem bt_sound (c : Crossword) :
    ∀ (fuel : Nat) (d : Domains) (a : Assignment) (sol : Assignment),
      consistentPy c a = true → (backtrackModel c fuel d a).1 = .found sol →
      consistentPy c sol = true ∧ assignmentComplete c sol = true := by
  intro fuel
  induction fuel with
  | zero => intro d a sol _ h; exact BtRes.noConfusion h
  | succ n ih =>
    intro d a sol hcons h
    rw [backtrackModel_succ] at h
    by_cases hcomp : assignmentComplete c a = true
    · rw [if_pos hcomp] at h
      have h2 : BtRes.found a = BtRes.found sol := h
      injection h2 with hsol
      subst hsol
      exact ⟨hcons, hcomp⟩
    · rw [if_neg hcomp] at h
      cases hsel : selectUnassigned c d a with
      | none =>
        rw [hsel] at h
        exact BtRes.noConfusion h
      | some var =>
        rw [hsel] at h
        simp only [Option.elim] at h
        exact btLoopG_sound _ _
          (btAttemptG_sound n (backtrackModel c n) c var _
            (fun d2 a2 sol2 hc2 h2 => ih d2 a2 sol2 hc2 h2))
          _ d a sol h

/-! ### Unpacking `consistent`. -/

theorem uniqueLoop_spec (a : Assignment) :
    ∀ (vs : List Variable) (seen : List Word), seen.Nodup →
      uniqueLoop a vs seen = true →
      (∀ v ∈ vs, (lookupA a v).length = v.length) ∧
      (seen ++ vs.map (lookupA a)).Nodup := by
  intro vs
  induction vs with
  | nil =>
    intro seen hnd _
    simpa using hnd
  | cons v rest ih =>
    intro seen hnd h
    simp only [uniqueLoop] at h
    split at h
    · rename_i hcond
      obtain ⟨hlen, hmem⟩ := hcond
      have hnd2 : (seen ++ [lookupA a v]).Nodup := by
        rw [List.nodup_append]
        refine ⟨hnd, List.nodup_singleton _, ?_⟩
        intro x hx hx2
        rw [List.mem_singleton] at hx2
        exact hmem (hx2 ▸ hx)
      obtain ⟨h1, h2⟩ := ih (seen ++ [lookupA a v]) hnd2 h
      refine ⟨?_, ?_⟩
      · intro u hu
        rcases List.mem_cons.mp hu with rfl | hu2
        · exact hlen
        · exact h1 u hu2
      · simpa [List.append_assoc] using h2
    · exact Bool.noConfusion h

theorem pairsOk_spec (c : Crossword) (a : Assignment) (h : pairsOk c a = true) :
    ∀ v1 ∈ a.map (fun p => p.1), ∀ v2 ∈ a.map (fun p => p.1), ¬ v1 = v2 →
      ∀ i j, c.overlap v1 v2 = some (i, j) →
        (lookupA a v1).getD i '?' = (lookupA a v2).getD j '?' := by
  intro v1 h1 v2 h2 hne i j hov
  unfold pairsOk at h
  rw [List.all_eq_true] at h
  have h3 := h v1 h1
  rw [List.all_eq_true] at h3
  have h4 := h3 v2 h2
  rw [if_neg hne, hov] at h4
  exact of_decide_eq_true h4

theorem consistentPy_nil (c : Crossword) : consistentPy c [] = true := rfl

/-! ### Claim theorems. -/

/-- C1: every assignment returned by `solve` (a `found` result of the
model) is sound: each assigned slot's word has the slot's declared
length, the assigned words are pairwise distinct, and every overlapping
pair of assigned slots agrees on the shared letter. -/
theorem claim1_solver_soundness (fuel : Nat) (c : Crossword) (sol : Assignment)
    (h : (solveModel c fuel).1 = .found sol) :
    (∀ v ∈ sol.map (fun p => p.1), (lookupA sol v).length = v.length) ∧
    (sol.map (fun p => lookupA sol p.1)).Nodup ∧
    (∀ v1 ∈ sol.map (fun p => p.1), ∀ v2 ∈ sol.map (fun p => p.1), ¬ v1 = v2 →
      ∀ i j, c.overlap v1 v2 = some (i, j) →
        (lookupA sol v1).getD i '?' = (lookupA sol v2).getD j '?') := by
  have hsol : consistentPy c sol = true := by
    simp only [solveModel] at h
    exact (bt_sound c fuel _ [] sol (consistentPy_nil c) h).1
  unfold consistentPy at hsol
  obtain ⟨hu, hp⟩ := (Bool.and_eq_true _ _).mp hsol
  obtain ⟨hlen, hnd⟩ := uniqueLoop_spec sol _ [] List.nodup_nil hu
  refine ⟨hlen, ?_, pairsOk_spec c sol hp⟩
  have h2 : ((sol.map (fun p => p.1)).map (lookupA sol)).Nodup := by simpa using hnd
  simpa [List.map_map, Function.comp] using h2

/-- Witness for C1 at a solvable one-slot puzzle. -/
theorem claim1_witness :
    (∀ v ∈ ([(slotW1, ['a'])] : Assignment).map (fun p => p.1),
        (lookupA [(slotW1, ['a'])] v).length = v.length) ∧
    (([(slotW1, ['a'])] : Assignment).map (fun p => lookupA [(slotW1, ['a'])] p.1)).Nodup ∧
    (∀ v1 ∈ ([(slotW1, ['a'])] : Assignment).map (fun p => p.1),
      ∀ v2 ∈ ([(slotW1, ['a'])] : Assignment).map (fun p => p.1), ¬ v1 = v2 →
      ∀ i j, cw1.overlap v1 v2 = some (i, j) →
        (lookupA [(slotW1, ['a'])] v1).getD i '?' =
          (lookupA [(slotW1, ['a'])] v2).getD j '?') :=
  claim1_solver_soundness 5 cw1 [(slotW1, ['a'])] (by decide)

/-- C2 (failing input): `revise` iterates over the list it mutates, so
with `x`'s domain `["aa", "ba"]` and `y`'s domain `["cz"]` under overlap
`(0, 0)` it removes `"aa"`, skips `"ba"`, and returns `True` — while the
specified postcondition domain (kept words having a partner in `y`) is
empty; indeed the surviving word has no partner. -/
theorem claim2_revise_failing_input :
    (reviseModel cwXY domC2 slotX slotY).1 = true ∧
    (reviseModel cwXY domC2 slotX slotY).2 slotX = [['b','a']] ∧
    reviseSpecDomain cwXY domC2 slotX slotY = [] ∧
    canOverlap ['b','a'] (domC2 slotY) (0, 0) = false := by decide

/-- C3 (failing input): with `slotA3` (degree 3) and `slotB3` (degree 2)
tied on domain size, `select_unassigned_variable` returns `slotB3`, not
the maximum-degree slot, because the tie loop never updates
`highest_degree`; and on two tied degree-0 slots it returns no slot at
all although unassigned slots exist. -/
theorem claim3_select_failing_input :
    selectUnassigned cw3 dom3 [] = some slotB3 ∧
    (pySet ((varArcsOf cw3 slotB3).flatMap (fun arc => [arc.1, arc.2]))).length = 2 ∧
    (pySet ((varArcsOf cw3 slotA3).flatMap (fun arc => [arc.1, arc.2]))).length = 3 ∧
    (dom3 slotA3).length = 1 ∧ (dom3 slotB3).length = 1 ∧
    selectUnassigned cw3b dom3b [] = none ∧
    aHasKey ([] : Assignment) slotP1 = false ∧ slotP1 ∈ cw3b.vars := by decide

/-- C4 (failing input): because `revise` skips elements while mutating,
the first `ac3` run on `domC4` returns `True` but leaves the
inconsistent word `"ba"` in `slotX`'s domain, and a second run removes
it — the second run is not removal-free. -/
theorem claim4_ac3_failing_input :
    (ac3Run cwXY 20 (defaultArcs cwXY) domC4).1 = AcRes.success ∧
    (ac3Run cwXY 20 (defaultArcs cwXY) domC4).2 slotX = [['b','a'], ['c','a']] ∧
    (ac3Run cwXY 20 (defaultArcs cwXY)
        ((ac3Run cwXY 20 (defaultArcs cwXY) domC4).2)).2 slotX = [['c','a']] := by decide

/-- C5: inside `backtrack`, a candidate attempt for an unassigned slot
whose recursion fails leaves the domain store and the assignment exactly
equal to their values before the attempt. -/
theorem claim5_backtrack_restoration (fuel : Nat) (c : Crossword) (var : Variable)
    (value : Word) (d : Domains) (a : Assignment)
    (hvar : aHasKey a var = false)
    (hfail : (btAttemptG fuel (backtrackModel c fuel) c var value d a).1 = .exhausted) :
    (btAttemptG fuel (backtrackModel c fuel) c var value d a).2.1 = d ∧
      (btAttemptG fuel (backtrackModel c fuel) c var value d a).2.2 = a :=
  btAttemptG_restore fuel (backtrackModel c fuel) c var value d a
    (fun d2 a2 h2 => bt_restore c fuel d2 a2 h2) hvar hfail

/-- Witness for C5 at a concrete failing attempt. -/
theorem claim5_witness :
    (btAttemptG 5 (backtrackModel cw5 5) cw5 slotQ1 ['a'] dom5 []).2.1 = dom5 ∧
      (btAttemptG 5 (backtrackModel cw5 5) cw5 slotQ1 ['a'] dom5 []).2.2 = [] :=
  claim5_backtrack_restoration 5 cw5 slotQ1 ['a'] dom5 [] (by decide) (by decide)

/-- C6 (amended): `ac3` returns `False` exactly when a revision empties
the revised slot's domain — at such a return some slot's domain is empty
that was nonempty before the call; when it returns `True`, a slot whose
domain is empty at termination was already empty before the call (an
initially empty domain alone does not make `ac3` return `False`). -/
theorem claim6_ac3_return_amended (c : Crossword) (fuel : Nat) (arcs : List Arc)
    (d : Domains) :
    ((ac3Run c fuel arcs d).1 = AcRes.failure →
      ∃ v, (ac3Run c fuel arcs d).2 v = [] ∧ d v ≠ []) ∧
    ((ac3Run c fuel arcs d).1 = AcRes.success →
      ∀ v, (ac3Run c fuel arcs d).2 v = [] → d v = []) :=
  ⟨(ac3Loop_spec c arcs fuel arcs d).2.1, (ac3Loop_spec c arcs fuel arcs d).2.2⟩

/-- Counterexample for C6 as stated: with a caller-supplied empty arc
list and an already-empty domain, `ac3` returns `True` although a
slot's domain is empty at termination. -/
theorem claim6_counterexample :
    (ac3Run cw6 5 [] dom6).1 = AcRes.success ∧
    (ac3Run cw6 5 [] dom6).2 slotV6 = [] ∧ slotV6 ∈ cw6.vars := by decide

/-- Witness for C6 (amended) at a run that fails by emptying a domain. -/
theorem claim6_witness :
    ∃ v, (ac3Run cwXY 10 (defaultArcs cwXY) domC6f).2 v = [] ∧ domC6f v ≠ [] :=
  (claim6_ac3_return_amended cwXY 10 (defaultArcs cwXY) domC6f).1 (by decide)

/-- C7 (amended): after a shrinking revision of `(v1, v2)`, the arcs
appended to the queue are exactly the pairs `(z, v1)` where `z ≠ v1`
occurs together with `v1` in some arc of the initial arc list and has a
truthy overlap entry with `v1` — including `z = v2`, so `(v2, v1)` is
re-enqueued as well; `z`'s outside the initial arc list are not. -/
theorem claim7_enqueue_amended (c : Crossword) (arcs : List Arc) (v1 v2 z w : Variable) :
    (z, w) ∈ ac3Enqueue c arcs v1 v2 ↔
      (w = v1 ∧ ¬ z = v1 ∧ (c.overlap z v1).isSome = true ∧
        ∃ q, q ∈ arcs ∧ (q.1 = v1 ∨ q.2 = v1) ∧ (z = q.1 ∨ z = q.2)) :=
  mem_ac3Enqueue c arcs v1 v2 z w

/-- Counterexample for C7 as stated: a revision of `(slotX, slotY)` that
removes a word without emptying the domain does append the arc
`(slotY, slotX)` to the queue. -/
theorem claim7_counterexample :
    (reviseModel cwXY domC2 slotX slotY).1 = true ∧
    (reviseModel cwXY domC2 slotX slotY).2 slotX ≠ [] ∧
    (slotY, slotX) ∈ ac3Enqueue cwXY (defaultArcs cwXY) slotX slotY := by decide

/-- C8: a call to `revise` and a call to `ac3` (with any arc list) leave
every slot's domain a subset of the domain it had before the call. -/
theorem claim8_domain_monotonicity :
    (∀ (c : Crossword) (d : Domains) (x y v : Variable),
      (reviseModel c d x y).2 v ⊆ d v) ∧
    (∀ (c : Crossword) (fuel : Nat) (arcs : List Arc) (d : Domains) (v : Variable),
      (ac3Run c fuel arcs d).2 v ⊆ d v) :=
  ⟨fun c d x y v => (reviseModel_sublist c d x y v).subset,
   fun c fuel arcs d v => ((ac3Loop_spec c arcs fuel arcs d).1 v).subset⟩

/-- C10 (failing input): on the unsatisfiable puzzle `cw3b` (two
isolated one-letter slots, a single one-letter word that cannot be used
twice), `solve` does not return the `None` signal — it crashes, because
`select_unassigned_variable` returns no slot on the degree-0 tie. -/
theorem claim10_solve_failing_input :
    (solveModel cw3b 5).1 = BtRes.crash ∧
    cw3b.words.all (fun w1 => cw3b.words.all (fun w2 =>
      ! consistentPy cw3b [(slotP1, w1), (slotP2, w2)])) = true := by decide

/-- C9: on a duplicate-free domain, `order_domain_values` returns exactly
the words of the slot's current domain, in ascending order of the
conflict count `rulesOutCount` (conflicts counted over each unassigned
overlapping neighbor's domain words whose shared letter differs), with
ties keeping the domain's relative order (Python's `sorted` is stable). -/
theorem claim9_order_domain_values (c : Crossword) (d : Domains) (a : Assignment)
    (var : Variable) (hnd : (d var).Nodup) :
    (orderDomainValues c d a var).Perm (d var) ∧
    (orderDomainValues c d a var).Pairwise
      (fun w1 w2 => rulesOutCount c d a var w1 ≤ rulesOutCount c d a var w2) ∧
    (∀ w1 w2, rulesOutCount c d a var w1 = rulesOutCount c d a var w2 →
      [w1, w2].Sublist (d var) → [w1, w2].Sublist (orderDomainValues c d a var)) := by
  haveI htot : IsTotal (Word × Nat) (fun p q : Word × Nat => p.2 ≤ q.2) :=
    ⟨fun p q => Nat.le_total p.2 q.2⟩
  haveI htr : IsTrans (Word × Nat) (fun p q : Word × Nat => p.2 ≤ q.2) :=
    ⟨fun p q s h1 h2 => Nat.le_trans h1 h2⟩
  unfold orderDomainValues
  rw [pySet_eq_self hnd]
  refine ⟨?_, ?_, ?_⟩
  · have hperm := (List.perm_insertionSort (fun p q : Word × Nat => p.2 ≤ q.2)
      ((d var).map (fun w => (w, rulesOutCount c d a var w)))).map (fun p => p.1)
    have hid : List.map ((fun p : Word × Nat => p.1) ∘ fun w =>
        (w, rulesOutCount c d a var w)) (d var) = d var := by
      simp [Function.comp_def]
    rw [List.map_map, hid] at hperm
    exact hperm
  · have hsorted := List.sorted_insertionSort (fun p q : Word × Nat => p.2 ≤ q.2)
      ((d var).map (fun w => (w, rulesOutCount c d a var w)))
    have hmem : ∀ p ∈ List.insertionSort (fun p q : Word × Nat => p.2 ≤ q.2)
        ((d var).map (fun w => (w, rulesOutCount c d a var w))),
        p.2 = rulesOutCount c d a var p.1 := by
      intro p hp
      have hp2 : p ∈ (d var).map (fun w => (w, rulesOutCount c d a var w)) :=
        (List.perm_insertionSort _ _).mem_iff.mp hp
      obtain ⟨w, _, rfl⟩ := List.mem_map.mp hp2
      rfl
    have hp2 : (List.insertionSort (fun p q : Word × Nat => p.2 ≤ q.2)
        ((d var).map (fun w => (w, rulesOutCount c d a var w)))).Pairwise
        (fun p q => rulesOutCount c d a var p.1 ≤ rulesOutCount c d a var q.1) := by
      refine List.Pairwise.imp_of_mem ?_ hsorted
      intro p q hpmem hqmem hle
      rw [← hmem p hpmem, ← hmem q hqmem]
      exact hle
    rw [List.pairwise_map]
    exact hp2
  · intro w1 w2 hceq hsub
    have hsubp : [(w1, rulesOutCount c d a var w1), (w2, rulesOutCount c d a var w2)].Sublist
        ((d var).map (fun w => (w, rulesOutCount c d a var w))) := by
      have hm := hsub.map (fun w => (w, rulesOutCount c d a var w))
      simpa using hm
    have hpair := List.pair_sublist_insertionSort
      (r := fun p q : Word × Nat => p.2 ≤ q.2) (Nat.le_of_eq hceq) hsubp
    have hm2 := hpair.map (fun p => p.1)
    simpa using hm2

/-- Witness for C9 at a concrete domain. -/
theorem claim9_witness :
    (orderDomainValues cwXY domC4 [] slotX).Perm (domC4 slotX) :=
  (claim9_order_domain_values cwXY domC4 [] slotX (by decide)).1

/-- Witness for C7 (amended) at a concrete enqueue step. -/
theorem claim7_witness :
    (slotY, slotX) ∈ ac3Enqueue cwXY (defaultArcs cwXY) slotX slotY :=
  (claim7_enqueue_amended cwXY (defaultArcs cwXY) slotX slotY slotY slotX).mpr (by decide)
